import Mathlib

/-!
A shallow embedding, in Lean, of the numeric pipeline of the
crypto_predictions repository (src/services/crypto_prediction_system.ts and
src/utils/calculationUtils.ts).  JavaScript numbers are modelled as exact
rationals; the NaN sentinel is modelled by `Option ℚ` (`none` stands for NaN).
Where IEEE special values other than NaN matter (the R2 metric), a dedicated
type `JSNum` with `fin / nan / inf / ninf` constructors is used.  All
definitions are executable and follow the TypeScript source line by line.
-/

namespace TechnicalAnalysis

/-- TechnicalAnalysis.calculateMovingAverage (crypto_prediction_system.ts
lines 253-269): entries with index `i < window - 1` are NaN, the rest are the
arithmetic mean of the trailing `window` values `series[i-j]`, `j < window`.
For `window = 0` the loop guard never fires and the code computes
`0 / 0 = NaN` at every index, hence `none`. -/
def calculateMovingAverage (series : List ℚ) (window : ℕ) : List (Option ℚ) :=
  (List.range series.length).map (fun i =>
    if window = 0 then none
    else if i + 1 < window then none
    else some ((((List.range window).map (fun j => series.getD (i - j) 0)).sum) / (window : ℚ)))

/-- The delta array of TechnicalAnalysis.addRSI (lines 280-289): entry 0 is 0,
entry i is `close[i] - close[i-1]`. -/
def deltaOf (close : List ℚ) : List ℚ :=
  (List.range close.length).map (fun i =>
    if i = 0 then 0 else close.getD i 0 - close.getD (i - 1) 0)

/-- The gain array of addRSI (line 292): `d > 0 ? d : 0`. -/
def gainOf (close : List ℚ) : List ℚ :=
  (deltaOf close).map (fun d => if 0 < d then d else 0)

/-- The loss array of addRSI (line 293): `d < 0 ? -d : 0`. -/
def lossOf (close : List ℚ) : List ℚ :=
  (deltaOf close).map (fun d => if d < 0 then -d else 0)

/-- The RS/RSI loop of addRSI (lines 300-311): NaN whenever the average gain
or average loss is NaN or the average loss is 0; otherwise
`100 - 100 / (1 + avgGain/avgLoss)`. -/
def rsiFromAvg (avgGain avgLoss : List (Option ℚ)) : List (Option ℚ) :=
  (List.range avgGain.length).map (fun i =>
    match avgGain.getD i none, avgLoss.getD i none with
    | some g, some l => if l = 0 then none else some (100 - 100 / (1 + g / l))
    | _, _ => none)

/-- TechnicalAnalysis.addRSI (lines 277-315), restricted to the RSI column it
appends: moving averages of the gain and loss arrays fed through the RS/RSI
loop. -/
def addRSI (close : List ℚ) (window : ℕ) : List (Option ℚ) :=
  rsiFromAvg (calculateMovingAverage (gainOf close) window)
    (calculateMovingAverage (lossOf close) window)

/-- The loop body of TechnicalAnalysis.calculateEMA for indices `i ≥ 1`
(lines 415-419): NaN if the current input or the previous output is NaN,
otherwise `alpha * series[i] + (1 - alpha) * result[i-1]`. -/
def temaAux (alpha : ℚ) (prev : Option ℚ) : List (Option ℚ) → List (Option ℚ)
  | [] => []
  | v :: rest =>
    (match v, prev with
     | some x, some p => some (alpha * x + (1 - alpha) * p)
     | _, _ => none) ::
      temaAux alpha
        (match v, prev with
         | some x, some p => some (alpha * x + (1 - alpha) * p)
         | _, _ => none) rest

/-- TechnicalAnalysis.calculateEMA (lines 408-423): `alpha = 2 / (span + 1)`,
entry 0 is `series[0]` verbatim, later entries follow the recurrence with NaN
propagation. -/
def calculateEMA (series : List (Option ℚ)) (span : ℕ) : List (Option ℚ) :=
  match series with
  | [] => []
  | v :: rest => v :: temaAux (2 / ((span : ℚ) + 1)) v rest

end TechnicalAnalysis

namespace CalculationUtils

/-- The changes array of calculateRSI (calculationUtils.ts lines 153-155):
`data[i] - data[i-1]` for `i = 1 .. n-1`. -/
def changesOf (data : List ℚ) : List ℚ :=
  (List.range (data.length - 1)).map (fun k => data.getD (k + 1) 0 - data.getD k 0)

/-- The gains array of calculateRSI (line 158). -/
def gainsOf (data : List ℚ) : List ℚ :=
  (changesOf data).map (fun c => if 0 < c then c else 0)

/-- The losses array of calculateRSI (line 159): `Math.abs(change)` of the
negative changes. -/
def lossesOf (data : List ℚ) : List ℚ :=
  (changesOf data).map (fun c => if c < 0 then -c else 0)

/-- The trailing average gain `gains.slice(i - period, i)` mean of
calculateRSI (line 169). -/
def avgGainAt (data : List ℚ) (period i : ℕ) : ℚ :=
  ((((gainsOf data).drop (i - period)).take period).sum) / (period : ℚ)

/-- The trailing average loss `losses.slice(i - period, i)` mean of
calculateRSI (line 170). -/
def avgLossAt (data : List ℚ) (period i : ℕ) : ℚ :=
  ((((lossesOf data).drop (i - period)).take period).sum) / (period : ℚ)

/-- calculateRSI (calculationUtils.ts lines 148-186): NaN for the first
`period` indices, 100 whenever the trailing average loss is 0 (the explicit
division-by-zero guard of lines 173-176), otherwise
`100 - 100 / (1 + avgGain/avgLoss)`.  For `period = 0` the code computes
`0 / 0 = NaN` averages and pushes NaN at every index. -/
def calculateRSI (data : List ℚ) (period : ℕ) : List (Option ℚ) :=
  (List.range data.length).map (fun i =>
    if period = 0 then none
    else if i < period then none
    else if avgLossAt data period i = 0 then some 100
    else some (100 - 100 / (1 + avgGainAt data period i / avgLossAt data period i)))

/-- The running-EMA loop of calculateEMA (calculationUtils.ts line 135):
`ema = (data[i] - ema) * multiplier + ema`, emitted for each index from
`period` on. -/
def utilEmaAux (m : ℚ) (ema : ℚ) : List ℚ → List ℚ
  | [] => []
  | x :: rest => ((x - ema) * m + ema) :: utilEmaAux m ((x - ema) * m + ema) rest

/-- calculateEMA (calculationUtils.ts lines 116-140): NaN for indices below
`period - 1`, the SMA of the first `period` values at index `period - 1`, the
recurrence afterwards.  When the series is shorter than `period` the seed
index is never reached and every entry is NaN; for `period = 0` the seed is
`0 / 0 = NaN` and so is every later entry. -/
def calculateEMA (data : List ℚ) (period : ℕ) : List (Option ℚ) :=
  if period = 0 then data.map (fun _ => none)
  else if data.length < period then data.map (fun _ => none)
  else
    (List.replicate (period - 1) (none : Option ℚ)) ++
      some ((data.take period).sum / (period : ℚ)) ::
        (utilEmaAux (2 / ((period : ℚ) + 1)) ((data.take period).sum / (period : ℚ))
          (data.drop period)).map some

end CalculationUtils

/-- JavaScript double values as they occur in MachineLearningPredictor.calculateR2:
a finite (exact rational) value, NaN, or a signed infinity. -/
inductive JSNum where
  | fin : ℚ → JSNum
  | nan : JSNum
  | inf : JSNum
  | ninf : JSNum
deriving DecidableEq

namespace JSNum

/-- IEEE division of two finite doubles: `a / 0` is `+Infinity` for `a > 0`,
`-Infinity` for `a < 0` and `NaN` for `a = 0`. -/
def divQ (a b : ℚ) : JSNum :=
  if b = 0 then (if 0 < a then inf else if a < 0 then ninf else nan)
  else fin (a / b)

/-- IEEE subtraction `1 - x`: `1 - Infinity = -Infinity`, `1 - NaN = NaN`. -/
def oneSub : JSNum → JSNum
  | fin q => fin (1 - q)
  | nan => nan
  | inf => ninf
  | ninf => inf

end JSNum

namespace MLPredictor

/-- The mean of yTrue computed by calculateR2 (crypto_prediction_system.ts
line 857). -/
def meanOf (yTrue : List ℚ) : ℚ := yTrue.sum / (yTrue.length : ℚ)

/-- The total sum of squares of calculateR2 (line 863). -/
def ssTotalOf (yTrue : List ℚ) : ℚ :=
  ((List.range yTrue.length).map (fun i => (yTrue.getD i 0 - meanOf yTrue) ^ 2)).sum

/-- The residual sum of squares of calculateR2 (line 864). -/
def ssResOf (yTrue yPred : List ℚ) : ℚ :=
  ((List.range yTrue.length).map (fun i => (yTrue.getD i 0 - yPred.getD i 0) ^ 2)).sum

/-- MachineLearningPredictor.calculateR2 (lines 856-868): `1 - ssRes/ssTotal`
with no guard against `ssTotal = 0`; the single-column rows `yTrue[i][0]` are
modelled as a flat list of rationals.  The division and subtraction follow
IEEE semantics via `JSNum`. -/
def calculateR2 (yTrue yPred : List ℚ) : JSNum :=
  JSNum.oneSub (JSNum.divQ (ssResOf yTrue yPred) (ssTotalOf yTrue))

/-- The shifted future-target column of prepareData (lines 629-637): row i
holds `target[i + predictionDays]`, or NaN when that index runs past the end. -/
def shiftFuture (target : List (Option ℚ)) (h : ℕ) : List (Option ℚ) :=
  (List.range target.length).map (fun i =>
    if target.length ≤ i + h then none else target.getD (i + h) none)

/-- Row i has a NaN in one of the columns (dropNaN, lines 689-700). -/
def rowHasNaN (cols : List (List (Option ℚ))) (i : ℕ) : Bool :=
  cols.any (fun c => (c.getD i none).isNone)

/-- The indices kept by dropNaN (lines 686-708): those rows, in order, where
no column holds NaN. -/
def dropNaNIndices (n : ℕ) (cols : List (List (Option ℚ))) : List ℕ :=
  (List.range n).filter (fun i => !rowHasNaN cols i)

/-- The row indices surviving prepareData's shift-then-dropNaN step
(lines 624-640) on a table with columns `cols` (each of length n) and target
column `target`: dropNaN runs over all columns of the copy, which are the
original columns plus the shifted future column. -/
def prepareKept (cols : List (List (Option ℚ))) (target : List (Option ℚ))
    (h n : ℕ) : List ℕ :=
  dropNaNIndices n (cols ++ [shiftFuture target h])

/-- `Math.floor(0.8 * XSequences.length)` of prepareData line 671 (the
argument is nonnegative, so `Math.floor` is the natural floor). -/
def splitIdx (n : ℕ) : ℕ := ⌊(4 / 5 : ℚ) * (n : ℚ)⌋₊

/-- JavaScript `Array.prototype.slice(s, e)` for nonnegative arguments. -/
def jsSlice {α : Type} (xs : List α) (s e : ℕ) : List α := (xs.drop s).take (e - s)

/-- JavaScript `Array.prototype.slice(s)` for a nonnegative argument. -/
def jsSliceFrom {α : Type} (xs : List α) (s : ℕ) : List α := xs.drop s

/-- The train/test split of prepareData (lines 670-676):
`slice(0, splitIdx)` and `slice(splitIdx)` of the windowed sequences. -/
def splitTrainTest {α : Type} (ws : List α) : List α × List α :=
  (jsSlice ws 0 (splitIdx ws.length), jsSliceFrom ws (splitIdx ws.length))

end MLPredictor

namespace MinMaxScaler

/-- The fitted state of MinMaxScaler (crypto_prediction_system.ts
lines 917-928): per-feature minimum, maximum and range plus the configured
output range. -/
structure State where
  mins : List ℚ
  maxs : List ℚ
  ranges : List ℚ
  fr : ℚ × ℚ
deriving DecidableEq

/-- The values of column j of the fitted matrix. -/
def colVals (data : List (List ℚ)) (j : ℕ) : List ℚ :=
  data.map (fun row => row.getD j 0)

/-- The per-column minimum computed by the fitTransform loop (lines 947-956);
starting from `Infinity`, the loop result over a nonempty column is the fold
of `min` over its values. -/
def colMin (data : List (List ℚ)) (j : ℕ) : ℚ :=
  match colVals data j with
  | [] => 0
  | x :: xs => xs.foldl min x

/-- The per-column maximum computed by the fitTransform loop (lines 947-956). -/
def colMax (data : List (List ℚ)) (j : ℕ) : ℚ :=
  match colVals data j with
  | [] => 0
  | x :: xs => xs.foldl max x

/-- The fitting part of MinMaxScaler.fitTransform (lines 935-959): feature
count is the length of the first row (fitting an empty matrix throws in the
source, hence `none`); `range = max - min` per column. -/
def fit (frange : ℚ × ℚ) (data : List (List ℚ)) : Option State :=
  match data with
  | [] => none
  | r0 :: _ =>
    some ⟨(List.range r0.length).map (fun j => colMin data j),
          (List.range r0.length).map (fun j => colMax data j),
          (List.range r0.length).map (fun j => colMax data j - colMin data j),
          frange⟩

/-- MinMaxScaler.transform (lines 970-1004): rejects input whose first-row
feature count differs from the fitted one (and an empty input, on which the
source dereferences `X[0]`); a zero-range column maps to the lower bound of
the output range, otherwise `(x - min)/range` is affinely mapped into the
output range. -/
def transform (st : State) (X : List (List ℚ)) : Option (List (List ℚ)) :=
  match X with
  | [] => none
  | r0 :: _ =>
    if r0.length = st.mins.length then
      some (X.map (fun row =>
        (List.range r0.length).map (fun j =>
          if st.ranges.getD j 0 = 0 then st.fr.1
          else ((row.getD j 0 - st.mins.getD j 0) / st.ranges.getD j 0) *
                 (st.fr.2 - st.fr.1) + st.fr.1)))
    else none

/-- MinMaxScaler.inverseTransform (lines 1011-1039): the same feature-count
guard, then `((x - lo)/(hi - lo)) * range + min` per entry. -/
def inverseTransform (st : State) (X : List (List ℚ)) : Option (List (List ℚ)) :=
  match X with
  | [] => none
  | r0 :: _ =>
    if r0.length = st.mins.length then
      some (X.map (fun row =>
        (List.range r0.length).map (fun j =>
          ((row.getD j 0 - st.fr.1) / (st.fr.2 - st.fr.1)) * st.ranges.getD j 0 +
            st.mins.getD j 0)))
    else none

end MinMaxScaler

namespace CryptoSystem

/-- The forward-fill loop of combineAllData (crypto_prediction_system.ts
lines 1467-1475): a running last-valid value replaces NaN entries; a leading
NaN before any valid value is left in place. -/
def ffillAux (last : Option ℚ) : List (Option ℚ) → List (Option ℚ)
  | [] => []
  | some x :: rest => some x :: ffillAux (some x) rest
  | none :: rest =>
    match last with
    | some l => some l :: ffillAux (some l) rest
    | none => none :: ffillAux none rest

/-- Forward fill of one column. -/
def ffill (col : List (Option ℚ)) : List (Option ℚ) := ffillAux none col

/-- The backward-fill loop (lines 1477-1485) walks the column from the end:
it is forward fill on the reversed column. -/
def bfill (col : List (Option ℚ)) : List (Option ℚ) :=
  (ffillAux none col.reverse).reverse

/-- One column after combineAllData's forward fill followed by backward fill
(lines 1464-1486). -/
def fillColumn (col : List (Option ℚ)) : List (Option ℚ) := bfill (ffill col)

/-- JavaScript `a > b` on possibly-NaN values: false whenever either side is
NaN. -/
def jsGtOpt (a b : Option ℚ) : Bool :=
  match a, b with
  | some x, some y => decide (y < x)
  | _, _ => false

/-- JavaScript `a <= b` on possibly-NaN values: false whenever either side is
NaN. -/
def jsLeOpt (a b : Option ℚ) : Bool :=
  match a, b with
  | some x, some y => decide (x ≤ y)
  | _, _ => false

/-- JavaScript `a < b` on possibly-NaN values. -/
def jsLtOpt (a b : Option ℚ) : Bool :=
  match a, b with
  | some x, some y => decide (x < y)
  | _, _ => false

/-- JavaScript `a >= b` on possibly-NaN values. -/
def jsGeOpt (a b : Option ℚ) : Bool :=
  match a, b with
  | some x, some y => decide (y ≤ x)
  | _, _ => false

/-- The golden-cross / MACD-bullish-cross column of generateTradingSignals
(lines 1618-1640 and 1649-1671): for each index `i ≥ 1` the fast line is
strictly above the slow line at `i` and was at or below it at `i - 1`; a
`false` is unshifted onto the front to keep the length.  `n` is the length of
the timestamp index of the combined table. -/
def bullishCrossCol (fastCol slowCol : List (Option ℚ)) (n : ℕ) : List Bool :=
  false :: (List.range (n - 1)).map (fun k =>
    jsGtOpt (fastCol.getD (k + 1) none) (slowCol.getD (k + 1) none) &&
      jsLeOpt (fastCol.getD k none) (slowCol.getD k none))

/-- The death-cross / MACD-bearish-cross column (same lines, with the
comparisons flipped). -/
def bearishCrossCol (fastCol slowCol : List (Option ℚ)) (n : ℕ) : List Bool :=
  false :: (List.range (n - 1)).map (fun k =>
    jsLtOpt (fastCol.getD (k + 1) none) (slowCol.getD (k + 1) none) &&
      jsGeOpt (fastCol.getD k none) (slowCol.getD k none))

/-- The individual boolean signal columns of the signals table, each present
only when its source columns exist in the combined table (generateTradingSignals,
lines 1614-1694). -/
structure Signals where
  goldenCross : Option (List Bool)
  deathCross : Option (List Bool)
  rsiOversold : Option (List Bool)
  rsiOverbought : Option (List Bool)
  macdBullishCross : Option (List Bool)
  macdBearishCross : Option (List Bool)
  priceBelowLowerBand : Option (List Bool)
  priceAboveUpperBand : Option (List Bool)
  extremeFear : Option (List Bool)
  extremeGreed : Option (List Bool)
  mvrvBuyZone : Option (List Bool)
  mvrvSellZone : Option (List Bool)

/-- The buy-category columns present in the signals table, in the order the
buy_signal aggregation checks them (lines 1701-1729). -/
def presentBuyCols (s : Signals) : List (List Bool) :=
  [s.goldenCross, s.rsiOversold, s.macdBullishCross, s.priceBelowLowerBand,
    s.extremeFear, s.mvrvBuyZone].filterMap id

/-- The sell-category columns present in the signals table, in the order the
sell_signal aggregation checks them (lines 1739-1767). -/
def presentSellCols (s : Signals) : List (List Bool) :=
  [s.deathCross, s.rsiOverbought, s.macdBearishCross, s.priceAboveUpperBand,
    s.extremeGreed, s.mvrvSellZone].filterMap id

/-- The number of present columns of one category that are true at row i. -/
def countFired (cols : List (List Bool)) (i : ℕ) : ℕ :=
  (cols.filter (fun c => c.getD i false)).length

/-- The aggregation of lines 1697-1733 and 1735-1771 at row i:
`count > 0 && count / total >= 0.5`, with JavaScript number division modelled
over ℚ (the division is only reached when `count > 0`, hence `total > 0`). -/
def aggSignal (cols : List (List Bool)) (i : ℕ) : Bool :=
  decide (0 < countFired cols i) &&
    decide ((1 / 2 : ℚ) ≤ (countFired cols i : ℚ) / (cols.length : ℚ))

/-- The buy_signal column entry at row i (lines 1697-1733). -/
def buySignalAt (s : Signals) (i : ℕ) : Bool := aggSignal (presentBuyCols s) i

/-- The sell_signal column entry at row i (lines 1735-1771). -/
def sellSignalAt (s : Signals) (i : ℕ) : Bool := aggSignal (presentSellCols s) i

end CryptoSystem

/-- Proof-internal reformulation of the running-EMA recursion of
TechnicalAnalysis.calculateEMA restricted to NaN-free input, used to analyze
`temaAux`. -/
def emaRecQ (alpha : ℚ) (prev : ℚ) : List ℚ → List ℚ
  | [] => []
  | x :: rest =>
    (alpha * x + (1 - alpha) * prev) :: emaRecQ alpha (alpha * x + (1 - alpha) * prev) rest

/-- The whole EMA list over NaN-free input: the seed followed by the
recursion. -/
def emaScanQ (alpha : ℚ) : List ℚ → List ℚ
  | [] => []
  | x :: rest => x :: emaRecQ alpha x rest

/-- The carried last-valid value of the fill loop after a prefix has been
processed. -/
def fillState (l : Option ℚ) (as : List (Option ℚ)) : Option ℚ :=
  as.foldl (fun acc v => match v with | some x => some x | none => acc) l

section Helpers

lemma getD_map_range {α : Type} (f : ℕ → α) {n i : ℕ} (h : i < n) (d : α) :
    ((List.range n).map f).getD i d = f i := by
  rw [List.getD_eq_getElem?_getD, List.getElem?_map, List.getElem?_range h]
  rfl

lemma getD_map_some (l : List ℚ) {i : ℕ} (h : i < l.length) :
    (l.map some).getD i none = some (l.getD i 0) := by
  rw [List.getD_eq_getElem?_getD, List.getElem?_map, List.getElem?_eq_getElem h,
    List.getD_eq_getElem l 0 h]
  rfl

lemma getD_isNone_false {c : List (Option ℚ)} {i : ℕ} (hclen : i < c.length)
    (hno : ∀ v ∈ c, v ≠ none) : (c.getD i none).isNone = false := by
  have hm : c.getD i none ∈ c := by
    rw [List.getD_eq_getElem c none hclen]
    exact List.getElem_mem hclen
  have hne := hno _ hm
  cases hdn : c.getD i none with
  | none => exact absurd hdn hne
  | some v => rfl

lemma filter_range_lt {k n : ℕ} (hk : k ≤ n) :
    (List.range n).filter (fun i => decide (i < k)) = List.range k := by
  induction n with
  | zero =>
    have : k = 0 := Nat.le_zero.mp hk
    simp [this]
  | succ m ih =>
    rcases Nat.lt_or_ge k (m + 1) with h | h
    · have hk2 : k ≤ m := Nat.lt_succ_iff.mp h
      have hmk : ¬ (m < k) := by omega
      rw [List.range_succ, List.filter_append, ih hk2]
      simp [hmk]
    · have hkm : k = m + 1 := le_antisymm hk h
      subst hkm
      apply List.filter_eq_self.mpr
      intro a ha
      simp [List.mem_range.mp ha]

end Helpers

section EmaLemmas

lemma temaAux_map_some (alpha p : ℚ) (ys : List ℚ) :
    TechnicalAnalysis.temaAux alpha (some p) (ys.map some) = (emaRecQ alpha p ys).map some := by
  induction ys generalizing p with
  | nil => rfl
  | cons y t ih => simp [TechnicalAnalysis.temaAux, emaRecQ, ih]

lemma calcEMA_map_some (xs : List ℚ) (span : ℕ) :
    TechnicalAnalysis.calculateEMA (xs.map some) span =
      (emaScanQ (2 / ((span : ℚ) + 1)) xs).map some := by
  cases xs with
  | nil => rfl
  | cons x rest => simp [TechnicalAnalysis.calculateEMA, emaScanQ, temaAux_map_some]

lemma length_emaRecQ (alpha p : ℚ) (ys : List ℚ) :
    (emaRecQ alpha p ys).length = ys.length := by
  induction ys generalizing p with
  | nil => rfl
  | cons y t ih => simp [emaRecQ, ih]

lemma length_emaScanQ (alpha : ℚ) (xs : List ℚ) :
    (emaScanQ alpha xs).length = xs.length := by
  cases xs with
  | nil => rfl
  | cons x rest => simp [emaScanQ, length_emaRecQ]

lemma emaRecQ_getD_succ (alpha : ℚ) (ys : List ℚ) :
    ∀ (i : ℕ) (p : ℚ), i + 1 < ys.length →
      (emaRecQ alpha p ys).getD (i + 1) 0 =
        alpha * ys.getD (i + 1) 0 + (1 - alpha) * (emaRecQ alpha p ys).getD i 0 := by
  induction ys with
  | nil => intro i p h; simp at h
  | cons y t ih =>
    intro i p h
    cases i with
    | zero =>
      cases t with
      | nil => simp at h
      | cons z u => simp [emaRecQ]
    | succ k =>
      have h2 : k + 1 < t.length := by simpa using h
      simpa [emaRecQ] using ih k (alpha * y + (1 - alpha) * p) h2

lemma emaScanQ_getD_succ (alpha : ℚ) (xs : List ℚ) (i : ℕ) (h : i + 1 < xs.length) :
    (emaScanQ alpha xs).getD (i + 1) 0 =
      alpha * xs.getD (i + 1) 0 + (1 - alpha) * (emaScanQ alpha xs).getD i 0 := by
  cases xs with
  | nil => simp at h
  | cons x rest =>
    cases i with
    | zero =>
      cases rest with
      | nil => simp at h
      | cons z u => simp [emaScanQ, emaRecQ]
    | succ k =>
      have h2 : k + 1 < rest.length := by simpa using h
      simpa [emaScanQ] using emaRecQ_getD_succ alpha rest k x h2

end EmaLemmas

/-- Claim C1 (corrected): the original claim fails on the pipeline
implementation.  For closes `[1,1,1]` and period 2, index 1 has enough
history and its trailing average loss is 0 (second conjunct), yet
TechnicalAnalysis.addRSI leaves the RSI entry NaN rather than 100: line 304
of crypto_prediction_system.ts sends `avgLoss === 0` to the NaN branch. -/
theorem c1_counterexample :
    (TechnicalAnalysis.calculateMovingAverage (TechnicalAnalysis.lossOf [1, 1, 1]) 2).getD 1 none
        = some 0 ∧
    (TechnicalAnalysis.addRSI [1, 1, 1] 2).getD 1 none = none ∧
    (TechnicalAnalysis.addRSI [1, 1, 1] 2).getD 1 none ≠ some 100 := by
  have h2 : (TechnicalAnalysis.addRSI [1, 1, 1] 2).getD 1 none = none := by
    norm_num [TechnicalAnalysis.addRSI, TechnicalAnalysis.rsiFromAvg,
      TechnicalAnalysis.calculateMovingAverage, TechnicalAnalysis.gainOf,
      TechnicalAnalysis.lossOf, TechnicalAnalysis.deltaOf, List.range_succ]
  refine ⟨?_, h2, ?_⟩
  · norm_num [TechnicalAnalysis.calculateMovingAverage, TechnicalAnalysis.lossOf,
      TechnicalAnalysis.deltaOf, List.range_succ]
  · rw [h2]; simp

/-- Claim C1 (amended): at any index with enough history where the trailing
average loss is 0, the utility calculateRSI returns 100; the pipeline
TechnicalAnalysis.addRSI instead returns the NaN sentinel at every index
where the trailing average loss is (computable and) 0. -/
theorem c1_rsi_avg_loss_zero :
    (∀ (data : List ℚ) (period i : ℕ), 0 < period → period ≤ i → i < data.length →
        CalculationUtils.avgLossAt data period i = 0 →
        (CalculationUtils.calculateRSI data period).getD i none = some 100) ∧
    (∀ (close : List ℚ) (window i : ℕ), i < close.length →
        (TechnicalAnalysis.calculateMovingAverage (TechnicalAnalysis.lossOf close) window).getD
            i none = some 0 →
        (TechnicalAnalysis.addRSI close window).getD i none = none) := by
  constructor
  · intro data period i hper hpi hilen hloss
    rw [CalculationUtils.calculateRSI, getD_map_range _ hilen]
    have h1 : ¬ period = 0 := Nat.pos_iff_ne_zero.mp hper
    have h2 : ¬ i < period := not_lt.mpr hpi
    simp [h1, h2, hloss]
  · intro close window i hilen hloss
    have hlen : (TechnicalAnalysis.calculateMovingAverage (TechnicalAnalysis.gainOf close)
        window).length = close.length := by
      simp [TechnicalAnalysis.calculateMovingAverage, TechnicalAnalysis.gainOf,
        TechnicalAnalysis.deltaOf]
    rw [TechnicalAnalysis.addRSI, TechnicalAnalysis.rsiFromAvg,
      getD_map_range _ (by rw [hlen]; exact hilen)]
    rw [hloss]
    cases (TechnicalAnalysis.calculateMovingAverage (TechnicalAnalysis.gainOf close)
        window).getD i none with
    | none => rfl
    | some g => simp

/-- Claim C1 witness: the amended theorem applied at concrete inputs.  For
the flat series `[1,1,1]` with period 2 both conclusions evaluate. -/
theorem c1_witness :
    (CalculationUtils.calculateRSI [1, 1, 1] 2).getD 2 none = some 100 ∧
    (TechnicalAnalysis.addRSI [1, 1, 1] 2).getD 1 none = none := by
  constructor
  · exact c1_rsi_avg_loss_zero.1 [1, 1, 1] 2 2 (by norm_num) (by norm_num) (by norm_num)
      (by norm_num [CalculationUtils.avgLossAt, CalculationUtils.lossesOf,
        CalculationUtils.gainsOf, CalculationUtils.changesOf, List.range_succ])
  · exact c1_rsi_avg_loss_zero.2 [1, 1, 1] 2 1 (by norm_num)
      (by norm_num [TechnicalAnalysis.calculateMovingAverage, TechnicalAnalysis.lossOf,
        TechnicalAnalysis.deltaOf, List.range_succ])

/-- Claim C2 (corrected): the original claim fails on the utility
implementation.  calculateEMA (calculationUtils.ts) on `[1,2,3]` with
period 2 emits NaN as its first entry, not the first input value 1. -/
theorem c2_counterexample :
    (CalculationUtils.calculateEMA [1, 2, 3] 2).head? = some none ∧
    (none : Option ℚ) ≠ some 1 := by
  constructor
  · norm_num [CalculationUtils.calculateEMA, CalculationUtils.utilEmaAux,
      List.replicate_succ]
  · simp

/-- Claim C2 (amended): for every nonempty numeric series the pipeline
TechnicalAnalysis.calculateEMA seeds with the first value, produces no NaN
anywhere, and satisfies `ema[i] = value[i]*(2/(period+1)) + ema[i-1]*(1 -
2/(period+1))` for every later index; the utility calculateEMA instead emits
NaN at every index below `period - 1`. -/
theorem c2_ema_properties :
    (∀ (xs : List ℚ) (span : ℕ), xs ≠ [] →
      ((TechnicalAnalysis.calculateEMA (xs.map some) span).getD 0 none = some (xs.getD 0 0) ∧
       (TechnicalAnalysis.calculateEMA (xs.map some) span).length = xs.length ∧
       (∀ i, i < xs.length → (TechnicalAnalysis.calculateEMA (xs.map some) span).getD i none ≠ none) ∧
       (∀ i, i + 1 < xs.length → ∃ p c,
         (TechnicalAnalysis.calculateEMA (xs.map some) span).getD i none = some p ∧
         (TechnicalAnalysis.calculateEMA (xs.map some) span).getD (i + 1) none = some c ∧
         c = xs.getD (i + 1) 0 * (2 / ((span : ℚ) + 1)) +
               p * (1 - 2 / ((span : ℚ) + 1))))) ∧
    (∀ (data : List ℚ) (period i : ℕ), i + 1 < period → i < data.length →
      (CalculationUtils.calculateEMA data period).getD i none = none) := by
  constructor
  · intro xs span hne
    rw [calcEMA_map_some]
    set alpha := 2 / ((span : ℚ) + 1) with halpha
    have hlen : (emaScanQ alpha xs).length = xs.length := length_emaScanQ alpha xs
    have hpos : 0 < xs.length := List.length_pos.mpr hne
    refine ⟨?_, ?_, ?_, ?_⟩
    · rw [getD_map_some _ (by rw [hlen]; exact hpos)]
      cases xs with
      | nil => exact absurd rfl hne
      | cons x rest => simp [emaScanQ]
    · simp [hlen]
    · intro i hi
      rw [getD_map_some _ (by rw [hlen]; exact hi)]
      simp
    · intro i hi
      have hi0 : i < xs.length := Nat.lt_of_succ_lt hi
      refine ⟨(emaScanQ alpha xs).getD i 0, (emaScanQ alpha xs).getD (i + 1) 0,
        getD_map_some _ (by rw [hlen]; exact hi0),
        getD_map_some _ (by rw [hlen]; exact hi), ?_⟩
      rw [emaScanQ_getD_succ alpha xs i hi]
      ring
  · intro data period i hip hilen
    rw [CalculationUtils.calculateEMA]
    have hper : ¬ period = 0 := by omega
    by_cases hshort : data.length < period
    · simp only [hper, if_false, hshort, if_true]
      rw [List.getD_eq_getElem?_getD, List.getElem?_map, List.getElem?_eq_getElem hilen]
      rfl
    · simp only [hper, if_false, hshort, if_true]
      have hrep : i < (List.replicate (period - 1) (none : Option ℚ)).length := by
        simp; omega
      rw [List.getD_eq_getElem?_getD, List.getElem?_append, if_pos hrep,
        List.getElem?_replicate, if_pos (by simpa using hrep)]
      rfl

/-- Claim C2 witness: the amended theorem applied at `[1,2]` with span 2 for
the pipeline and at `[1,2,3]` with period 2, index 0 for the utility. -/
theorem c2_witness :
    (TechnicalAnalysis.calculateEMA [some (1 : ℚ), some 2] 2).getD 0 none = some 1 ∧
    (CalculationUtils.calculateEMA [1, 2, 3] 2).getD 0 none = none := by
  constructor
  · have h := (c2_ema_properties.1 [1, 2] 2 (by simp)).1
    simpa using h
  · exact c2_ema_properties.2 [1, 2, 3] 2 0 (by norm_num) (by norm_num)

/-- Claim C3 (corrected): the original claim fails on the code.  On the
equal-length nonempty vectors yTrue = `[1,1]`, yPred = `[1,2]` the total sum
of squares is 0 but calculateR2 reports `1 - 1/0 = 1 - Infinity = -Infinity`,
not NaN: the source divides unconditionally. -/
theorem c3_counterexample :
    MLPredictor.ssTotalOf [1, 1] = 0 ∧
    MLPredictor.calculateR2 [1, 1] [1, 2] = JSNum.ninf ∧
    JSNum.ninf ≠ JSNum.nan := by
  refine ⟨?_, ?_, by decide⟩
  · norm_num [MLPredictor.ssTotalOf, MLPredictor.meanOf, List.range_succ]
  · norm_num [MLPredictor.calculateR2, MLPredictor.ssResOf, MLPredictor.ssTotalOf,
      MLPredictor.meanOf, JSNum.divQ, JSNum.oneSub, List.range_succ]

/-- Claim C3 (amended): on every nonempty pair of equal-length vectors with
total sum of squares 0, calculateR2 divides by zero anyway and reports
-Infinity when the residual sum of squares is positive; it reports NaN only
when the residual sum of squares is also 0. -/
theorem c3_r2_sstotal_zero (yTrue yPred : List ℚ) (hne : yTrue ≠ [])
    (hlen : yTrue.length = yPred.length) (h0 : MLPredictor.ssTotalOf yTrue = 0) :
    MLPredictor.calculateR2 yTrue yPred =
      (if MLPredictor.ssResOf yTrue yPred = 0 then JSNum.nan else JSNum.ninf) := by
  have hres : 0 ≤ MLPredictor.ssResOf yTrue yPred := by
    apply List.sum_nonneg
    intro x hx
    rw [List.mem_map] at hx
    obtain ⟨i, _, rfl⟩ := hx
    positivity
  by_cases hz : MLPredictor.ssResOf yTrue yPred = 0
  · simp [MLPredictor.calculateR2, h0, JSNum.divQ, hz, JSNum.oneSub]
  · have hpos : 0 < MLPredictor.ssResOf yTrue yPred := lt_of_le_of_ne hres (Ne.symm hz)
    simp [MLPredictor.calculateR2, h0, JSNum.divQ, hz, hpos, JSNum.oneSub]

/-- Claim C3 witness: the amended theorem applied to `[2,2]` against `[2,2]`,
where both sums of squares vanish and the reported value is NaN. -/
theorem c3_witness : MLPredictor.calculateR2 [2, 2] [2, 2] = JSNum.nan := by
  have h := c3_r2_sstotal_zero [2, 2] [2, 2] (by simp) (by simp)
    (by norm_num [MLPredictor.ssTotalOf, MLPredictor.meanOf, List.range_succ])
  rw [h, if_pos (by norm_num [MLPredictor.ssResOf, List.range_succ])]

/-- Claim C6 (corrected): the original claim fails on the code.  A 5-row
table whose required columns (here the single feature/target column
`[1,2,3,4,5]`, NaN-free) sit beside an extra all-NaN column keeps 0 rows
under horizon 2, not 5 - 2 = 3: dropNaN (lines 689-700) scans every column of
the copied table, not only the required ones. -/
theorem c6_counterexample :
    (MLPredictor.prepareKept
        [[some 1, some 2, some 3, some 4, some 5], List.replicate 5 (none : Option ℚ)]
        [some 1, some 2, some 3, some 4, some 5] 2 5).length = 0 ∧
    (0 : ℕ) ≠ 5 - 2 := by
  constructor
  · norm_num [MLPredictor.prepareKept, MLPredictor.dropNaNIndices, MLPredictor.rowHasNaN,
      MLPredictor.shiftFuture, List.range_succ, List.replicate_succ]
  · decide

/-- Claim C6 (amended): on a table of n rows none of whose columns contains
NaN, with target column `target` and horizon `h` with `0 < h < n`, the
shift-then-dropNaN step marks exactly the last h rows (those whose shift
reads past the end) with NaN and drops exactly them: the kept row indices are
`0 .. n-h-1` in order, `n - h` many, and the shifted column holds
`target[i+h]` at every kept row i. -/
theorem c6_shift_then_drop (cols : List (List (Option ℚ))) (target : List (Option ℚ))
    (h n : ℕ) (hh0 : 0 < h) (hhn : h < n)
    (hlen : ∀ c ∈ cols, c.length = n)
    (hnoNaN : ∀ c ∈ cols, ∀ v ∈ c, v ≠ none)
    (htarget : target ∈ cols) :
    MLPredictor.prepareKept cols target h n = List.range (n - h) ∧
    (MLPredictor.prepareKept cols target h n).length = n - h ∧
    (∀ i, i < n - h →
      (MLPredictor.shiftFuture target h).getD i none = target.getD (i + h) none) := by
  have htlen : target.length = n := hlen target htarget
  have hsf : ∀ i, i < n →
      (MLPredictor.shiftFuture target h).getD i none =
        (if target.length ≤ i + h then none else target.getD (i + h) none) := by
    intro i hi
    rw [MLPredictor.shiftFuture, getD_map_range _ (by rw [htlen]; exact hi)]
  have hmain : MLPredictor.prepareKept cols target h n = List.range (n - h) := by
    rw [MLPredictor.prepareKept, MLPredictor.dropNaNIndices]
    rw [List.filter_congr (q := fun i => decide (i < n - h)) ?_]
    · exact filter_range_lt (Nat.sub_le n h)
    · intro i hi
      have hin : i < n := List.mem_range.mp hi
      rw [MLPredictor.rowHasNaN]
      rw [List.any_append]
      have h1 : cols.any (fun c => (c.getD i none).isNone) = false := by
        rw [List.any_eq_false]
        intro c hc
        have hclen : i < c.length := by rw [hlen c hc]; exact hin
        rw [getD_isNone_false hclen (hnoNaN c hc)]
        simp
      rw [h1]
      simp only [Bool.false_or, List.any_cons, List.any_nil, Bool.or_false]
      rw [hsf i hin]
      by_cases hcase : i + h < n
      · have hle : ¬ target.length ≤ i + h := by rw [htlen]; omega
        rw [if_neg hle]
        have hmem : i + h < target.length := by rw [htlen]; exact hcase
        rw [getD_isNone_false hmem (hnoNaN target htarget)]
        simp
        omega
      · have hle : target.length ≤ i + h := by rw [htlen]; omega
        rw [if_pos hle]
        simp
        omega
  refine ⟨hmain, by rw [hmain]; simp, ?_⟩
  intro i hi
  have hin : i < n := lt_of_lt_of_le hi (Nat.sub_le n h)
  rw [hsf i hin, if_neg (by rw [htlen]; omega)]

/-- Claim C6 witness: the amended theorem applied to a one-column 5-row table
`[1,2,3,4,5]` with horizon 2: rows 0,1,2 are kept. -/
theorem c6_witness :
    MLPredictor.prepareKept [[some (1 : ℚ), some 2, some 3, some 4, some 5]]
      [some (1 : ℚ), some 2, some 3, some 4, some 5] 2 5 = List.range 3 := by
  have h := c6_shift_then_drop [[some (1 : ℚ), some 2, some 3, some 4, some 5]]
    [some (1 : ℚ), some 2, some 3, some 4, some 5] 2 5 (by norm_num) (by norm_num)
    (by intro c hc; simp at hc; subst hc; rfl)
    (by
      intro c hc v hv
      simp at hc
      subst hc
      simp at hv
      rcases hv with h1 | h1 | h1 | h1 | h1 <;> simp [h1])
    (by simp)
  exact h.1

/-- Claim C7 (confirmed): the train/test split of prepareData is
deterministic and order-preserving with no shuffling: the training set is
exactly the first `floor(0.8 * n)` windows in original order, the test set
exactly the remaining `n - floor(0.8 * n)` windows in original order, and
together they recompose the original window list. -/
theorem c7_split_train_test {α : Type} (ws : List α) :
    (MLPredictor.splitTrainTest ws).1 = ws.take (MLPredictor.splitIdx ws.length) ∧
    (MLPredictor.splitTrainTest ws).2 = ws.drop (MLPredictor.splitIdx ws.length) ∧
    (MLPredictor.splitTrainTest ws).1 ++ (MLPredictor.splitTrainTest ws).2 = ws ∧
    (MLPredictor.splitTrainTest ws).1.length = MLPredictor.splitIdx ws.length ∧
    (MLPredictor.splitTrainTest ws).2.length = ws.length - MLPredictor.splitIdx ws.length ∧
    MLPredictor.splitIdx ws.length = 4 * ws.length / 5 := by
  have hidx : ∀ n : ℕ, MLPredictor.splitIdx n = 4 * n / 5 := by
    intro n
    rw [MLPredictor.splitIdx]
    have hc : (4 / 5 : ℚ) * (n : ℚ) = ((4 * n : ℕ) : ℚ) / ((5 : ℕ) : ℚ) := by
      push_cast
      ring
    rw [hc, Nat.floor_div_nat, Nat.floor_natCast]
  have hle : MLPredictor.splitIdx ws.length ≤ ws.length := by
    rw [hidx]
    omega
  refine ⟨by simp [MLPredictor.splitTrainTest, MLPredictor.jsSlice], rfl, ?_, ?_, ?_, hidx _⟩
  · simp [MLPredictor.splitTrainTest, MLPredictor.jsSlice, MLPredictor.jsSliceFrom]
  · simp [MLPredictor.splitTrainTest, MLPredictor.jsSlice, hle]
  · simp [MLPredictor.splitTrainTest, MLPredictor.jsSliceFrom]

/-- One row of the scaler roundtrip: inverting the transformed entries of a
row whose entries respect the fitted bounds recovers the row, also through
the zero-range branch. -/
lemma scaler_row_roundtrip (st : MinMaxScaler.State) (m : ℕ) (row : List ℚ)
    (hrlen : row.length = m)
    (hd : st.fr.2 - st.fr.1 ≠ 0)
    (hrange_j : ∀ j, j < m → st.ranges.getD j 0 = st.maxs.getD j 0 - st.mins.getD j 0)
    (hb : ∀ j, j < m → st.mins.getD j 0 ≤ row.getD j 0 ∧ row.getD j 0 ≤ st.maxs.getD j 0) :
    List.map (fun j =>
        ((List.map (fun j => if st.ranges.getD j 0 = 0 then st.fr.1
            else (row.getD j 0 - st.mins.getD j 0) / st.ranges.getD j 0 *
              (st.fr.2 - st.fr.1) + st.fr.1) (List.range m)).getD j 0 - st.fr.1) /
          (st.fr.2 - st.fr.1) * st.ranges.getD j 0 + st.mins.getD j 0)
      (List.range m) = row := by
  apply List.ext_getElem
  · simp [hrlen]
  · intro j hj1 hj2
    have hjm : j < m := by simpa using hj1
    rw [List.getElem_map, List.getElem_range, getD_map_range _ hjm]
    by_cases hr : st.ranges.getD j 0 = 0
    · rw [if_pos hr]
      have hminmax : st.maxs.getD j 0 = st.mins.getD j 0 := by
        have h := hrange_j j hjm
        rw [hr] at h
        linarith
      have hb2 := hb j hjm
      have hrowj : row.getD j 0 = st.mins.getD j 0 := by
        rw [hminmax] at hb2
        linarith [hb2.1, hb2.2]
      rw [← List.getD_eq_getElem row 0 hj2, hrowj]
      simp
    · rw [if_neg hr]
      rw [← List.getD_eq_getElem row 0 hj2]
      have hrq : st.ranges[j]?.getD 0 ≠ 0 := by
        rw [← List.getD_eq_getElem?_getD]
        exact hr
      field_simp
      ring

/-- Claim C4 (confirmed): for every MinMaxScaler fitted on a nonempty matrix
(with a non-degenerate configured output range) and every matrix with the
fit-time feature count whose entries lie within the per-column fit-time
[min, max] bounds, inverseTransform after transform is the identity — here
exactly over ℚ, hence in particular within floating-point tolerance.  The
degenerate-column case (fit-time min = max) is included: such a column is
sent to the lower output bound and restored to the fit-time minimum, which
the bounds hypothesis forces to be the original value. -/
theorem c4_scaler_roundtrip (frange : ℚ × ℚ) (data W : List (List ℚ))
    (st : MinMaxScaler.State) (m : ℕ)
    (hfit : MinMaxScaler.fit frange data = some st)
    (hdata : ∀ r ∈ data, r.length = m)
    (hW : ∀ r ∈ W, r.length = m)
    (hWne : W ≠ [])
    (hfr : frange.1 ≠ frange.2)
    (hbound : ∀ row ∈ W, ∀ j, j < m →
      st.mins.getD j 0 ≤ row.getD j 0 ∧ row.getD j 0 ≤ st.maxs.getD j 0) :
    (MinMaxScaler.transform st W).bind (MinMaxScaler.inverseTransform st) = some W := by
  cases data with
  | nil => simp [MinMaxScaler.fit] at hfit
  | cons r0 rest =>
  rw [MinMaxScaler.fit] at hfit
  injection hfit with hst
  have hmins : st.mins = (List.range r0.length).map (fun j => MinMaxScaler.colMin (r0 :: rest) j) := by
    rw [← hst]
  have hmaxs : st.maxs = (List.range r0.length).map (fun j => MinMaxScaler.colMax (r0 :: rest) j) := by
    rw [← hst]
  have hranges : st.ranges = (List.range r0.length).map
      (fun j => MinMaxScaler.colMax (r0 :: rest) j - MinMaxScaler.colMin (r0 :: rest) j) := by
    rw [← hst]
  have hfrq : st.fr = frange := by rw [← hst]
  have hm0 : r0.length = m := hdata r0 (List.mem_cons_self r0 rest)
  have hminslen : st.mins.length = m := by rw [hmins]; simp [hm0]
  have hrange_j : ∀ j, j < m →
      st.ranges.getD j 0 = st.maxs.getD j 0 - st.mins.getD j 0 := by
    intro j hj
    have hj0 : j < r0.length := by rw [hm0]; exact hj
    rw [hranges, hmaxs, hmins, getD_map_range _ hj0, getD_map_range _ hj0,
      getD_map_range _ hj0]
  have hd : st.fr.2 - st.fr.1 ≠ 0 := by
    rw [hfrq]
    exact sub_ne_zero_of_ne (Ne.symm hfr)
  cases W with
  | nil => exact absurd rfl hWne
  | cons w0 W1 =>
  have hw0 : w0.length = m := hW w0 (List.mem_cons_self w0 W1)
  simp only [MinMaxScaler.transform]
  rw [if_pos (by rw [hw0, hminslen])]
  rw [Option.some_bind]
  simp only [List.map_cons]
  simp only [MinMaxScaler.inverseTransform]
  rw [if_pos (by simp [hw0, hminslen])]
  simp only [List.length_map, List.length_range, hw0]
  congr 1
  rw [List.map_cons, List.map_map]
  congr 1
  · exact scaler_row_roundtrip st m w0 hw0 hd hrange_j
      (fun j hj => hbound w0 (List.mem_cons_self w0 W1) j hj)
  · conv_rhs => rw [← List.map_id W1]
    apply List.map_congr_left
    intro row hrow
    simp only [Function.comp, id]
    exact scaler_row_roundtrip st m row (hW row (List.mem_cons_of_mem w0 hrow)) hd hrange_j
      (fun j hj => hbound row (List.mem_cons_of_mem w0 hrow) j hj)

/-- Claim C4 witness: the roundtrip theorem applied to the scaler fitted on
`[[1],[3],[5]]` with output range [0,1] and the in-range matrix `[[3]]`. -/
theorem c4_witness :
    (MinMaxScaler.transform ⟨[1], [5], [4], (0, 1)⟩ [[3]]).bind
      (MinMaxScaler.inverseTransform ⟨[1], [5], [4], (0, 1)⟩) = some [[3]] := by
  apply c4_scaler_roundtrip (0, 1) [[1], [3], [5]] [[3]] ⟨[1], [5], [4], (0, 1)⟩ 1
  · norm_num [MinMaxScaler.fit, MinMaxScaler.colMin, MinMaxScaler.colMax,
      MinMaxScaler.colVals, List.range_succ]
  · intro r hr
    simp at hr
    rcases hr with h | h | h <;> simp [h]
  · intro r hr
    simp at hr
    simp [hr]
  · simp
  · norm_num
  · intro row hrow j hj
    simp at hrow
    interval_cases j
    norm_num [hrow]

/-- Claim C5 (confirmed): on every fitted MinMaxScaler, a column whose
fit-time maximum equals its fit-time minimum is sent by transform to the
lower bound of the configured output range at every row, with no failure and
no NaN (the range-0 branch of lines 991-992 short-circuits the division). -/
theorem c5_degenerate_column (frange : ℚ × ℚ) (data W : List (List ℚ))
    (st : MinMaxScaler.State) (m j : ℕ)
    (hfit : MinMaxScaler.fit frange data = some st)
    (hdata : ∀ r ∈ data, r.length = m)
    (hW : ∀ r ∈ W, r.length = m)
    (hWne : W ≠ [])
    (hj : j < m)
    (hdeg : st.maxs.getD j 0 = st.mins.getD j 0) :
    ∃ T, MinMaxScaler.transform st W = some T ∧ T.length = W.length ∧
      ∀ t ∈ T, t.getD j 0 = frange.1 := by
  cases data with
  | nil => simp [MinMaxScaler.fit] at hfit
  | cons r0 rest =>
  rw [MinMaxScaler.fit] at hfit
  injection hfit with hst
  have hmins : st.mins = (List.range r0.length).map (fun j => MinMaxScaler.colMin (r0 :: rest) j) := by
    rw [← hst]
  have hmaxs : st.maxs = (List.range r0.length).map (fun j => MinMaxScaler.colMax (r0 :: rest) j) := by
    rw [← hst]
  have hranges : st.ranges = (List.range r0.length).map
      (fun j => MinMaxScaler.colMax (r0 :: rest) j - MinMaxScaler.colMin (r0 :: rest) j) := by
    rw [← hst]
  have hfrq : st.fr = frange := by rw [← hst]
  have hm0 : r0.length = m := hdata r0 (List.mem_cons_self r0 rest)
  have hminslen : st.mins.length = m := by rw [hmins]; simp [hm0]
  have hj0 : j < r0.length := by rw [hm0]; exact hj
  have hr0 : st.ranges.getD j 0 = 0 := by
    rw [hranges, getD_map_range _ hj0]
    have h1 : st.maxs.getD j 0 = MinMaxScaler.colMax (r0 :: rest) j := by
      rw [hmaxs, getD_map_range _ hj0]
    have h2 : st.mins.getD j 0 = MinMaxScaler.colMin (r0 :: rest) j := by
      rw [hmins, getD_map_range _ hj0]
    rw [← h1, ← h2, hdeg]
    ring
  cases W with
  | nil => exact absurd rfl hWne
  | cons w0 W1 =>
  have hw0 : w0.length = m := hW w0 (List.mem_cons_self w0 W1)
  simp only [MinMaxScaler.transform]
  rw [if_pos (by rw [hw0, hminslen])]
  refine ⟨_, rfl, by simp, ?_⟩
  intro t ht
  rw [List.mem_map] at ht
  obtain ⟨row, hrow, rfl⟩ := ht
  rw [getD_map_range _ (by rw [hw0]; exact hj)]
  rw [if_pos hr0, hfrq]

/-- Claim C5 witness: the scaler fitted on the degenerate column
`[[7],[7],[7]]` with output range [0,1] maps that same column to 0 at every
row. -/
theorem c5_witness :
    ∃ T, MinMaxScaler.transform ⟨[7], [7], [0], (0, 1)⟩ [[7], [7], [7]] = some T ∧
      T.length = 3 ∧ ∀ t ∈ T, t.getD 0 0 = 0 := by
  have h := c5_degenerate_column (0, 1) [[7], [7], [7]] [[7], [7], [7]]
    ⟨[7], [7], [0], (0, 1)⟩ 1 0
    (by norm_num [MinMaxScaler.fit, MinMaxScaler.colMin, MinMaxScaler.colMax,
      MinMaxScaler.colVals, List.range_succ])
    (by intro r hr; simp at hr; simp [hr])
    (by intro r hr; simp at hr; simp [hr])
    (by simp)
    (by norm_num)
    (by norm_num)
  simpa using h

section FillLemmas

lemma fillState_cons (l : Option ℚ) (v : Option ℚ) (as : List (Option ℚ)) :
    fillState l (v :: as) =
      fillState (match v with | some x => some x | none => l) as := by
  cases v <;> rfl

lemma ffillAux_append (l : Option ℚ) (as bs : List (Option ℚ)) :
    CryptoSystem.ffillAux l (as ++ bs) =
      CryptoSystem.ffillAux l as ++ CryptoSystem.ffillAux (fillState l as) bs := by
  induction as generalizing l with
  | nil => rfl
  | cons v as ih =>
    cases v with
    | some x =>
      simp only [List.cons_append, CryptoSystem.ffillAux, List.append_eq, ih, fillState_cons]
    | none =>
      cases l with
      | some p =>
        simp only [List.cons_append, CryptoSystem.ffillAux, List.append_eq, ih, fillState_cons]
      | none =>
        simp only [List.cons_append, CryptoSystem.ffillAux, List.append_eq, ih, fillState_cons]

lemma ffillAux_some_no_none (l : ℚ) (xs : List (Option ℚ)) :
    none ∉ CryptoSystem.ffillAux (some l) xs := by
  induction xs generalizing l with
  | nil => simp [CryptoSystem.ffillAux]
  | cons v rest ih =>
    cases v with
    | some x => simp [CryptoSystem.ffillAux, ih x]
    | none => simp [CryptoSystem.ffillAux, ih l]

lemma ffillAux_no_none_of_no_none (l : Option ℚ) (xs : List (Option ℚ))
    (h : none ∉ xs) : none ∉ CryptoSystem.ffillAux l xs := by
  induction xs generalizing l with
  | nil => simp [CryptoSystem.ffillAux]
  | cons v rest ih =>
    cases v with
    | some x =>
      have h2 : none ∉ rest := fun hr => h (List.mem_cons_of_mem _ hr)
      simp [CryptoSystem.ffillAux, ih (some x) h2]
    | none => exact absurd (List.mem_cons_self none rest) h

lemma ffillAux_all_none (xs : List (Option ℚ)) (h : ∀ v ∈ xs, v = none) :
    CryptoSystem.ffillAux none xs = xs := by
  induction xs with
  | nil => rfl
  | cons v rest ih =>
    have hv : v = none := h v (List.mem_cons_self v rest)
    subst hv
    have h2 : ∀ v ∈ rest, v = none := fun v hv => h v (List.mem_cons_of_mem _ hv)
    simp [CryptoSystem.ffillAux, ih h2]

lemma ffillAux_cons_some (l : Option ℚ) (x : ℚ) (bs : List (Option ℚ)) :
    CryptoSystem.ffillAux l (some x :: bs) = some x :: CryptoSystem.ffillAux (some x) bs := by
  cases l <;> rfl

end FillLemmas

/-- Claim C8 (confirmed): after combineAllData's forward fill followed by
backward fill, every column that held at least one non-NaN value holds no NaN
anywhere, and a column with no non-NaN value at all is left unchanged,
entirely NaN. -/
theorem c8_fill_leaves_no_nan (col : List (Option ℚ)) :
    ((∃ x, some x ∈ col) → ∀ v ∈ CryptoSystem.fillColumn col, v ≠ none) ∧
    ((∀ v ∈ col, v = none) → CryptoSystem.fillColumn col = col) := by
  constructor
  · rintro ⟨x, hx⟩ v hv
    obtain ⟨as, bs, rfl⟩ := List.append_of_mem hx
    rw [CryptoSystem.fillColumn, CryptoSystem.ffill, CryptoSystem.bfill] at hv
    rw [ffillAux_append, ffillAux_cons_some] at hv
    rw [List.mem_reverse] at hv
    set A := CryptoSystem.ffillAux none as with hA
    set B := CryptoSystem.ffillAux (some x) bs with hB
    have hBnn : none ∉ B := ffillAux_some_no_none x bs
    have hrev : (A ++ some x :: B).reverse = B.reverse ++ some x :: A.reverse := by
      simp
    rw [hrev, ffillAux_append, ffillAux_cons_some] at hv
    intro hvn
    subst hvn
    rcases List.mem_append.mp hv with h1 | h1
    · exact ffillAux_no_none_of_no_none none B.reverse
        (fun hc => hBnn (List.mem_reverse.mp hc)) h1
    · rcases List.mem_cons.mp h1 with h2 | h2
      · exact Option.noConfusion h2
      · exact ffillAux_some_no_none x A.reverse h2
  · intro h
    have h1 : CryptoSystem.ffill col = col := ffillAux_all_none col h
    rw [CryptoSystem.fillColumn, h1, CryptoSystem.bfill,
      ffillAux_all_none col.reverse (fun v hv => h v (List.mem_reverse.mp hv)),
      List.reverse_reverse]

/-- Claim C8 witness: the fill theorem applied to the column `[NaN, 1]`
(one valid value, so no NaN survives) and to the all-NaN column `[NaN, NaN]`
(left untouched). -/
theorem c8_witness :
    (∀ v ∈ CryptoSystem.fillColumn [none, some (1 : ℚ)], v ≠ none) ∧
    CryptoSystem.fillColumn [none, none] = ([none, none] : List (Option ℚ)) := by
  constructor
  · exact (c8_fill_leaves_no_nan [none, some 1]).1 ⟨1, by simp⟩
  · exact (c8_fill_leaves_no_nan [none, none]).2 (by intro v hv; simpa using hv)

/-- True at row i for at least one present column of the category. -/
lemma aggSignal_iff (cols : List (List Bool)) (i : ℕ) :
    CryptoSystem.aggSignal cols i = true ↔
      ((∃ c ∈ cols, c.getD i false = true) ∧
        cols.length ≤ 2 * CryptoSystem.countFired cols i) := by
  rw [CryptoSystem.aggSignal]
  simp only [Bool.and_eq_true, decide_eq_true_eq]
  constructor
  · rintro ⟨h1, h2⟩
    have hne : cols.filter (fun c => c.getD i false) ≠ [] := by
      intro hc
      rw [CryptoSystem.countFired, hc] at h1
      simp at h1
    obtain ⟨c, hc⟩ := List.exists_mem_of_ne_nil _ hne
    have hc2 := List.mem_filter.mp hc
    refine ⟨⟨c, hc2.1, hc2.2⟩, ?_⟩
    have htot : 0 < cols.length := by
      rcases cols with _ | ⟨d, ds⟩
      · simp at hc2
      · simp
    rw [div_le_div_iff (by norm_num) (by exact_mod_cast htot)] at h2
    have h3 : (cols.length : ℚ) ≤ 2 * (CryptoSystem.countFired cols i : ℚ) := by
      linarith
    exact_mod_cast h3
  · rintro ⟨⟨c, hc, hp⟩, h2⟩
    have hcnt : 0 < CryptoSystem.countFired cols i := by
      rw [CryptoSystem.countFired]
      apply List.length_pos.mpr
      intro hc2
      exact (List.filter_eq_nil_iff.mp hc2) c hc (by simpa using hp)
    refine ⟨hcnt, ?_⟩
    have htot : 0 < cols.length := List.length_pos.mpr (by rintro rfl; simp at hc)
    rw [div_le_div_iff (by norm_num) (by exact_mod_cast htot)]
    have h3 : (cols.length : ℚ) ≤ 2 * (CryptoSystem.countFired cols i : ℚ) := by
      exact_mod_cast h2
    linarith

/-- No fired column means the aggregate is false. -/
lemma aggSignal_no_fire (cols : List (List Bool)) (i : ℕ)
    (h : ∀ c ∈ cols, c.getD i false = false) :
    CryptoSystem.aggSignal cols i = false := by
  have hcnt : CryptoSystem.countFired cols i = 0 := by
    rw [CryptoSystem.countFired]
    rw [List.length_eq_zero]
    rw [List.filter_eq_nil_iff]
    intro c hc
    simpa using h c hc
  simp [CryptoSystem.aggSignal, hcnt]

/-- Claim C9 (confirmed): at every row of the signals table, the aggregate
buy (respectively sell) signal is true exactly when at least one present
buy-category (sell-category) signal fired there and the fired count is at
least half the count of computable signal types of that category; with no
fired signal the aggregate is false, so an empty category never produces a
vacuous true. -/
theorem c9_aggregate_signals (s : CryptoSystem.Signals) (i : ℕ) :
    (CryptoSystem.buySignalAt s i = true ↔
      ((∃ c ∈ CryptoSystem.presentBuyCols s, c.getD i false = true) ∧
        (CryptoSystem.presentBuyCols s).length ≤
          2 * CryptoSystem.countFired (CryptoSystem.presentBuyCols s) i)) ∧
    (CryptoSystem.sellSignalAt s i = true ↔
      ((∃ c ∈ CryptoSystem.presentSellCols s, c.getD i false = true) ∧
        (CryptoSystem.presentSellCols s).length ≤
          2 * CryptoSystem.countFired (CryptoSystem.presentSellCols s) i)) ∧
    ((∀ c ∈ CryptoSystem.presentBuyCols s, c.getD i false = false) →
      CryptoSystem.buySignalAt s i = false) ∧
    ((∀ c ∈ CryptoSystem.presentSellCols s, c.getD i false = false) →
      CryptoSystem.sellSignalAt s i = false) :=
  ⟨aggSignal_iff _ i, aggSignal_iff _ i,
    fun h => aggSignal_no_fire _ i h, fun h => aggSignal_no_fire _ i h⟩

/-- Claim C9 witness: with only the RSI-oversold column present and firing at
row 0, the buy signal is true (1 of 1 computable types fired); with no sell
column present the sell signal is false. -/
theorem c9_witness :
    CryptoSystem.buySignalAt
      ⟨none, none, some [true], none, none, none, none, none, none, none, none, none⟩ 0 = true ∧
    CryptoSystem.sellSignalAt
      ⟨none, none, some [true], none, none, none, none, none, none, none, none, none⟩ 0 = false := by
  constructor
  · apply (c9_aggregate_signals
      ⟨none, none, some [true], none, none, none, none, none, none, none, none, none⟩ 0).1.mpr
    refine ⟨⟨[true], by simp [CryptoSystem.presentBuyCols], by simp⟩, ?_⟩
    simp [CryptoSystem.presentBuyCols, CryptoSystem.countFired]
  · apply (c9_aggregate_signals
      ⟨none, none, some [true], none, none, none, none, none, none, none, none, none⟩ 0).2.2.2
    simp [CryptoSystem.presentSellCols]

/-- Claim C10 (corrected): the original claim fails on an empty combined
table.  With zero timestamps the comparison loop never runs but the code
still unshifts one initial `false`, so the produced column has length 1,
not 0. -/
theorem c10_counterexample :
    (CryptoSystem.bullishCrossCol [] [] 0).length = 1 ∧
    (CryptoSystem.bearishCrossCol [] [] 0).length = 1 ∧
    (1 : ℕ) ≠ 0 :=
  ⟨by simp [CryptoSystem.bullishCrossCol], by simp [CryptoSystem.bearishCrossCol], by decide⟩

/-- Claim C10 (amended): on every combined table with at least one timestamp,
each produced crossover column (golden cross and MACD bullish cross are
`bullishCrossCol`, death cross and MACD bearish cross are `bearishCrossCol`)
has exactly the length of the timestamp index, and its entry at the first
timestamp is false. -/
theorem c10_cross_columns (fastCol slowCol : List (Option ℚ)) (n : ℕ) (hn : 1 ≤ n) :
    (CryptoSystem.bullishCrossCol fastCol slowCol n).length = n ∧
    (CryptoSystem.bullishCrossCol fastCol slowCol n).head? = some false ∧
    (CryptoSystem.bearishCrossCol fastCol slowCol n).length = n ∧
    (CryptoSystem.bearishCrossCol fastCol slowCol n).head? = some false := by
  refine ⟨?_, rfl, ?_, rfl⟩ <;>
    · simp [CryptoSystem.bullishCrossCol, CryptoSystem.bearishCrossCol]
      omega

/-- Claim C10 witness: the amended theorem applied to one-timestamp MA
columns. -/
theorem c10_witness :
    (CryptoSystem.bullishCrossCol [some 1] [some 2] 1).length = 1 ∧
    (CryptoSystem.bullishCrossCol [some 1] [some 2] 1).head? = some false := by
  have h := c10_cross_columns [some 1] [some 2] 1 (by norm_num)
  exact ⟨h.1, h.2.1⟩

section Scratch

example : CalculationUtils.calculateRSI [1, 1, 1] 2 = [none, none, some 100] := by
  norm_num [CalculationUtils.calculateRSI, CalculationUtils.avgLossAt,
    CalculationUtils.avgGainAt, CalculationUtils.lossesOf, CalculationUtils.gainsOf,
    CalculationUtils.changesOf, List.range_succ]

example : TechnicalAnalysis.addRSI [1, 1, 1] 2 = [none, none, none] := by
  norm_num [TechnicalAnalysis.addRSI, TechnicalAnalysis.rsiFromAvg,
    TechnicalAnalysis.calculateMovingAverage, TechnicalAnalysis.gainOf,
    TechnicalAnalysis.lossOf, TechnicalAnalysis.deltaOf, List.range_succ]

example : CalculationUtils.calculateEMA [1, 2, 3] 2 = [none, some (3/2), some (5/2)] := by
  norm_num [CalculationUtils.calculateEMA, CalculationUtils.utilEmaAux, List.range_succ]

example : TechnicalAnalysis.calculateEMA [some 1, some 2, some 3] 2 =
    [some 1, some (5/3), some (23/9)] := by
  norm_num [TechnicalAnalysis.calculateEMA, TechnicalAnalysis.temaAux]

end Scratch
